import Mathlib

/-!
Shallow embedding of the task-management core of the repository
(`src/task.py`, `src/task_manager.py`, and the statistics display of
`src/cli.py`), together with proofs of the specification's claims.

Modelling conventions:
* Python `datetime` instants are modelled as `Int` timestamps; `isoformat`
  followed by `fromisoformat` restores the identical instant, so
  serialization of a date is the identity on the modelled instant.
* Python `int` is `Int`.
* In-place mutation is modelled by explicit state passing; a raised
  exception together with the state left behind by the partial mutation is
  modelled by returning the mutated state paired with an error indicator.
* `str.strip()` is modelled by `pyStrip`, `str.lower()` by `pyLower`, and the Python substring test `a in b` by `strContains`
  below.
* The JSON file behind the store is modelled by `FileContent`: a missing
  file, malformed (non-JSON) content, or a well-formed document
  `{next_id, tasks}`.
-/

namespace TaskSys

/-- `Task.VALID_STATUSES` from `task.py`. -/
def VALID_STATUSES : List String := ["pendiente", "en_progreso", "completada"]

/-- The `Task` entity of `task.py` (field `created_at` included; the
derived display helpers are presentation-layer and not modelled). -/
structure Task where
  id : Int
  name : String
  description : String
  due_date : Int
  status : String
  created_at : Int
deriving Repr, DecidableEq

/-- `Task.__init__`: rejects a status outside `VALID_STATUSES`, otherwise
builds the record; `due_date or datetime.now()` is `Option.getD` since a
`datetime` is always truthy; `created_at = datetime.now()` is the `now`
argument. -/
def Task.init (id : Int) (name description : String) (due_date : Option Int)
    (status : String) (now : Int) : Except String Task :=
  if status ∈ VALID_STATUSES then
    .ok { id := id, name := name, description := description,
          due_date := due_date.getD now, status := status, created_at := now }
  else
    .error "Estado inválido"

/-- `Task.update` from `task.py`. The Python method mutates `name`,
`description` and `due_date` in place before it validates `status`; when the
status is invalid it raises `ValueError` with those mutations already
applied. We therefore return the task state as left by the call together
with `some errorMessage` when the call raised. -/
def Task.update (t : Task) (name description : Option String)
    (due_date : Option Int) (status : Option String) : Task × Option String :=
  let t1 := match name with
            | some n => { t with name := n }
            | none => t
  let t2 := match description with
            | some d => { t1 with description := d }
            | none => t1
  let t3 := match due_date with
            | some dd => { t2 with due_date := dd }
            | none => t2
  match status with
  | none => (t3, none)
  | some s =>
      if s ∈ VALID_STATUSES then ({ t3 with status := s }, none)
      else (t3, some "Estado inválido")

/-- The dictionary produced by `Task.to_dict` (dates carried as the
modelled instants, see the header comment). -/
structure TaskRecord where
  id : Int
  name : String
  description : String
  due_date : Int
  status : String
  created_at : Int
deriving Repr, DecidableEq

/-- `Task.to_dict` from `task.py`. -/
def Task.to_dict (t : Task) : TaskRecord :=
  { id := t.id, name := t.name, description := t.description,
    due_date := t.due_date, status := t.status, created_at := t.created_at }

/-- `Task.from_dict` from `task.py`: calls the constructor (which validates
the status and can raise) and then overwrites `created_at` from the
record. -/
def Task.from_dict (r : TaskRecord) : Except String Task :=
  match Task.init r.id r.name r.description (some r.due_date) r.status r.created_at with
  | .error e => .error e
  | .ok t => .ok { t with created_at := r.created_at }

/-- Python `str.strip()`: the string without leading and trailing
whitespace (structurally recursive so that concrete instances compute). -/
def pyStrip (s : String) : String :=
  ⟨((s.toList.dropWhile Char.isWhitespace).reverse.dropWhile Char.isWhitespace).reverse⟩

/-- Python `str.lower()`: lower-case every character. -/
def pyLower (s : String) : String :=
  ⟨s.toList.map Char.toLower⟩

/-- Python substring membership `needle in haystack` on lists of
characters. -/
def containsSub (ndl : List Char) : List Char → Bool
  | [] => ndl.isEmpty
  | c :: t => ndl.isPrefixOf (c :: t) || containsSub ndl t

/-- Python `needle in haystack` on strings. -/
def strContains (haystack needle : String) : Bool :=
  containsSub needle.toList haystack.toList

/-- The `TaskManager` state of `task_manager.py`: the ordered task list and
the `next_id` counter (the configured file name is part of the environment,
not of the state the claims are about). -/
structure TaskManager where
  tasks : List Task
  next_id : Int
deriving Repr, DecidableEq

/-- `TaskManager.get_task_by_id`: first task with the given id, if any. -/
def TaskManager.get_task_by_id (m : TaskManager) (task_id : Int) : Option Task :=
  m.tasks.find? (fun t => t.id == task_id)

/-- `TaskManager.create_task`: rejects a blank (whitespace-only) name,
then builds the task via the validating constructor (which may reject the
status), appends it and increments `next_id`. The `save_to_file` call only
touches the file, not the in-memory state modelled here. -/
def TaskManager.create_task (m : TaskManager) (name description : String)
    (due_date : Option Int) (status : String) (now : Int) :
    Except String (TaskManager × Task) :=
  if pyStrip name = "" then
    .error "El nombre de la tarea no puede estar vacío"
  else
    match Task.init m.next_id (pyStrip name) (pyStrip description) due_date status now with
    | .error e => .error e
    | .ok task =>
        .ok ({ m with tasks := m.tasks ++ [task], next_id := m.next_id + 1 }, task)

/-- Replace the first task carrying `task_id` (the object `get_task_by_id`
returned and `Task.update` mutated in place). -/
def replaceFirst : List Task → Int → Task → List Task
  | [], _, _ => []
  | t :: rest, i, t2 => if t.id == i then t2 :: rest else t :: replaceFirst rest i t2

/-- `TaskManager.update_task`: `False` when the id is absent; otherwise the
found task is mutated in place by `Task.update` (whose `ValueError`
propagates, leaving the partially updated task in the list) and on success
the method returns `True`. -/
def TaskManager.update_task (m : TaskManager) (task_id : Int)
    (name description : Option String) (due_date : Option Int)
    (status : Option String) : TaskManager × Except String Bool :=
  match m.tasks.find? (fun t => t.id == task_id) with
  | none => (m, .ok false)
  | some t =>
      match Task.update t name description due_date status with
      | (t2, none) => ({ m with tasks := replaceFirst m.tasks task_id t2 }, .ok true)
      | (t2, some e) => ({ m with tasks := replaceFirst m.tasks task_id t2 }, .error e)

/-- Remove the first task carrying `task_id` (`list.remove` on the object
returned by `get_task_by_id`). -/
def removeFirst : List Task → Int → List Task
  | [], _ => []
  | t :: rest, i => if t.id == i then rest else t :: removeFirst rest i

/-- `TaskManager.delete_task`. -/
def TaskManager.delete_task (m : TaskManager) (task_id : Int) : TaskManager × Bool :=
  match m.tasks.find? (fun t => t.id == task_id) with
  | none => (m, false)
  | some _ => ({ m with tasks := removeFirst m.tasks task_id }, true)

/-- `TaskManager.filter_tasks`. Each criterion is guarded by Python
truthiness: `if status:` and `if name_contains:` skip both `None` and the
empty string, while a `datetime` bound is always truthy, so `if
due_date_from:` only tests for `None`. -/
def TaskManager.filter_tasks (m : TaskManager) (status : Option String)
    (due_date_from due_date_to : Option Int) (name_contains : Option String) :
    List Task :=
  let fl0 := m.tasks
  let fl1 := match status with
             | some s => if s = "" then fl0 else fl0.filter (fun t => t.status == s)
             | none => fl0
  let fl2 := match due_date_from with
             | some d => fl1.filter (fun t => d ≤ t.due_date)
             | none => fl1
  let fl3 := match due_date_to with
             | some d => fl2.filter (fun t => t.due_date ≤ d)
             | none => fl2
  match name_contains with
  | some q => if q = "" then fl3
              else fl3.filter (fun t => strContains (pyLower t.name) (pyLower q))
  | none => fl3

/-- `TaskManager.get_overdue_tasks`: `datetime.now()` at call time is the
`now` argument. -/
def TaskManager.get_overdue_tasks (m : TaskManager) (now : Int) : List Task :=
  m.tasks.filter (fun t => decide (t.due_date < now) && !(t.status == "completada"))

/-- `stats[key] += 1` on a Python dict: `none` models the `KeyError` raised
when the key is absent. -/
def dictIncr (d : List (String × Int)) (k : String) : Option (List (String × Int)) :=
  if d.any (fun p => p.1 == k) then
    some (d.map (fun p => if p.1 == k then (p.1, p.2 + 1) else p))
  else none

/-- The `for task in self.tasks: stats[task.status] += 1` loop of
`get_task_statistics`. -/
def statsLoop (d : List (String × Int)) : List Task → Option (List (String × Int))
  | [] => some d
  | t :: rest =>
      match dictIncr d t.status with
      | none => none
      | some d2 => statsLoop d2 rest

/-- `TaskManager.get_task_statistics`: the dict with keys `total`,
`pendiente`, `en_progreso`, `completada`, `vencidas` (in insertion order),
then one increment per task on the task's status key. -/
def TaskManager.get_task_statistics (m : TaskManager) (now : Int) :
    Option (List (String × Int)) :=
  statsLoop [("total", (m.tasks.length : Int)), ("pendiente", 0),
             ("en_progreso", 0), ("completada", 0),
             ("vencidas", ((m.get_overdue_tasks now).length : Int))] m.tasks

/-- Python `stats[key]` lookup (keys of interest are always present in the
dicts this is applied to; `0` is a don't-care default). -/
def dictGet (d : List (String × Int)) (k : String) : Int :=
  ((d.find? (fun p => p.1 == k)).map Prod.snd).getD 0

/-- The completion-rate computation of `cli.py`'s `show_statistics`: it is
performed (and printed) only under the guard `stats['total'] > 0`; modelled
with exact rationals in place of Python floats. -/
def cli_completion_rate (stats : List (String × Int)) : Option ℚ :=
  if 0 < dictGet stats "total" then
    some (((dictGet stats "completada" : ℚ) / (dictGet stats "total" : ℚ)) * 100)
  else none

/-- The JSON document `{"next_id": ..., "tasks": [...]}` written by
`save_to_file`. For a document read back from disk the fields hold
whatever the file held. -/
structure Document where
  next_id : Int
  tasks : List TaskRecord
deriving Repr, DecidableEq

/-- What the store's path may hold when it is read. -/
inductive FileContent where
  | missing
  | malformed
  | document (d : Document)
deriving Repr, DecidableEq

/-- `TaskManager.save_to_file`: the document it serializes. -/
def TaskManager.save_to_file (m : TaskManager) : Document :=
  { next_id := m.next_id, tasks := m.tasks.map Task.to_dict }

/-- The `for task_data in data.get("tasks", [])` loop of `load_from_file`:
appends each deserialized task and bumps `next_id` past its id; an
exception from `Task.from_dict` is caught by the surrounding `except`,
which returns `False` with the partially loaded state kept. -/
def loadLoop (m : TaskManager) : List TaskRecord → TaskManager × Bool
  | [] => (m, true)
  | r :: rest =>
      match Task.from_dict r with
      | .error _ => (m, false)
      | .ok t =>
          let m1 : TaskManager := { m with tasks := m.tasks ++ [t] }
          let m2 : TaskManager :=
            if m1.next_id ≤ t.id then { m1 with next_id := t.id + 1 } else m1
          loadLoop m2 rest

/-- `TaskManager.load_from_file`: a missing file is success with the state
untouched; malformed content makes `json.load` raise, which is caught and
reported as `False` with the state untouched; a well-formed document sets
`next_id`, resets the task list and runs the loading loop. -/
def TaskManager.load_from_file (m : TaskManager) : FileContent → TaskManager × Bool
  | .missing => (m, true)
  | .malformed => (m, false)
  | .document d => loadLoop { m with next_id := d.next_id, tasks := [] } d.tasks

/-- `TaskManager.__init__`: empty list, `next_id = 1`, then
`load_from_file` on the configured path. -/
def TaskManager.init (f : FileContent) : TaskManager × Bool :=
  TaskManager.load_from_file { tasks := [], next_id := 1 } f

/-- `TaskManager.clear_all_tasks` (always returns `True`; the state left
behind is what matters here). -/
def TaskManager.clear_all_tasks (m : TaskManager) : TaskManager :=
  { m with tasks := [], next_id := 1 }

/-- `TaskManager.search_tasks`: case-insensitive substring match against
name OR description. -/
def TaskManager.search_tasks (m : TaskManager) (query : String) : List Task :=
  let q := pyLower query
  m.tasks.filter (fun t =>
    strContains (pyLower t.name) q || strContains (pyLower t.description) q)

/-- The fields the round-trip law compares: (id, name, description,
status, due_date). -/
def taskProj (t : Task) : Int × String × String × String × Int :=
  (t.id, t.name, t.description, t.status, t.due_date)

/-- The task a record deserializes to when its status is valid. -/
def recTask (r : TaskRecord) : Task :=
  { id := r.id, name := r.name, description := r.description,
    due_date := r.due_date, status := r.status, created_at := r.created_at }

/-- One store operation (the mutating operations of `task_manager.py`). -/
inductive Op where
  | create (name description : String) (due_date : Option Int) (status : String) (now : Int)
  | update (task_id : Int) (name description : Option String)
      (due_date : Option Int) (status : Option String)
  | delete (task_id : Int)
  | clear
  | load (f : FileContent)
deriving Repr, DecidableEq

/-- The store state after one operation (a raised exception leaves the
state the operation had built up; for `create` the exception fires before
any mutation). -/
def applyOp (m : TaskManager) : Op → TaskManager
  | .create nm ds dd st now =>
      match m.create_task nm ds dd st now with
      | .ok p => p.1
      | .error _ => m
  | .update i nm ds dd st => (m.update_task i nm ds dd st).1
  | .delete i => (m.delete_task i).1
  | .clear => m.clear_all_tasks
  | .load f => (m.load_from_file f).1

/-- The store state after a sequence of operations. -/
def run (m : TaskManager) (ops : List Op) : TaskManager := ops.foldl applyOp m

/-- One operation together with the ids it assigned (a successful create
assigns exactly one id; every other outcome assigns none). -/
def applyOpTrace (m : TaskManager) (op : Op) : TaskManager × List Int :=
  match op with
  | .create nm ds dd st now =>
      match m.create_task nm ds dd st now with
      | .ok p => (p.1, [p.2.id])
      | .error _ => (m, [])
  | _ => (applyOp m op, [])

/-- Run a sequence of operations, collecting the assigned ids in order. -/
def runTrace (m : TaskManager) : List Op → TaskManager × List Int
  | [] => (m, [])
  | op :: rest =>
      let p := applyOpTrace m op
      let q := runTrace p.1 rest
      (q.1, p.2 ++ q.2)

/-- `[start, start+1, ..., start+k-1]`. -/
def intRange (start : Int) : Nat → List Int
  | 0 => []
  | k + 1 => start :: intRange (start + 1) k

/-- Restriction of `Op` to creates and deletes. -/
def isCreateOrDelete : Op → Bool
  | .create _ _ _ _ _ => true
  | .delete _ => true
  | _ => false

/-- The store invariant: `next_id` exceeds every id in the collection. -/
def Inv (m : TaskManager) : Prop := ∀ t ∈ m.tasks, t.id < m.next_id

/-- A fresh store (the state `__init__` builds before its load, and the
state a first run with no file ends up in). -/
def freshManager : TaskManager := { tasks := [], next_id := 1 }

/-- The filter as §4.2 of the spec words it (spec-side definition, kept for
comparison with `filter_tasks`): a task passes iff it satisfies every
supplied (non-`None`) criterion — status equality, inclusive date bounds,
case-insensitive substring match on the name. -/
def filterSpec (m : TaskManager) (status : Option String)
    (due_date_from due_date_to : Option Int) (name_contains : Option String) :
    List Task :=
  m.tasks.filter (fun t =>
    (match status with | some s => t.status == s | none => true) &&
    (match due_date_from with | some d => decide (d ≤ t.due_date) | none => true) &&
    (match due_date_to with | some d => decide (t.due_date ≤ d) | none => true) &&
    (match name_contains with
     | some q => strContains (pyLower t.name) (pyLower q)
     | none => true))

/-- A concrete task used by the concrete counterexamples and witnesses. -/
def exTask : Task :=
  { id := 1, name := "a", description := "", due_date := 0,
    status := "pendiente", created_at := 0 }

/-- A concrete one-task store used by the counterexamples and witnesses. -/
def exManager : TaskManager := { tasks := [exTask], next_id := 2 }

lemma containsSub_nil_left (l : List Char) : containsSub [] l = true := by
  induction l with
  | nil => rfl
  | cons c t ih => simp [containsSub, ih]

lemma strContains_empty (h : String) : strContains h "" = true := by
  have he : ("" : String).toList = [] := rfl
  simp [strContains, he, containsSub_nil_left]

/-- C10: `search_tasks` with the empty query returns the whole collection
(the empty string is a substring of every lowered name), in order. -/
theorem C10_empty_search (m : TaskManager) : m.search_tasks "" = m.tasks := by
  have hq : pyLower "" = "" := rfl
  simp only [TaskManager.search_tasks, hq]
  have hp : (fun t : Task =>
      strContains (pyLower t.name) "" || strContains (pyLower t.description) "") =
      fun _ : Task => true := by
    funext t
    simp [strContains_empty]
  rw [hp, List.filter_true]

/-- C8: `get_overdue_tasks` returns exactly the tasks that are strictly
past due at call time and not completed; a completed task is excluded
regardless of its due date. -/
theorem C8_overdue (m : TaskManager) (now : Int) (t : Task) :
    t ∈ m.get_overdue_tasks now ↔
      t ∈ m.tasks ∧ t.due_date < now ∧ t.status ≠ "completada" := by
  simp [TaskManager.get_overdue_tasks, List.mem_filter, and_assoc]

/-- C9: a blank (empty or whitespace-only after trimming) name makes
`create_task` fail with the empty-title error, and the failed call leaves
the store (collection and `next_id`) unchanged. -/
theorem C9_empty_title (m : TaskManager) (nm ds : String) (dd : Option Int)
    (st : String) (now : Int) (h : pyStrip nm = "") :
    m.create_task nm ds dd st now =
      .error "El nombre de la tarea no puede estar vacío" ∧
    applyOp m (.create nm ds dd st now) = m := by
  have h1 : m.create_task nm ds dd st now =
      .error "El nombre de la tarea no puede estar vacío" := by
    simp [TaskManager.create_task, h]
  exact ⟨h1, by simp [applyOp, h1]⟩

theorem C9_empty_title_witness :
    pyStrip "   " = "" ∧
    (exManager.create_task "   " "x" none "pendiente" 5 =
      .error "El nombre de la tarea no puede estar vacío" ∧
    applyOp exManager (.create "   " "x" none "pendiente" 5) = exManager) :=
  ⟨by decide, C9_empty_title exManager "   " "x" none "pendiente" 5 (by decide)⟩

/-- C5: constructing a store against malformed file content reports the
load failure, leaves an empty collection with `next_id = 1`, and a
subsequent create (with a non-blank name and the default status) succeeds
and assigns id 1. -/
theorem C5_corrupt_file (nm ds : String) (dd : Option Int) (now : Int)
    (h : pyStrip nm ≠ "") :
    (TaskManager.init .malformed).2 = false ∧
    (TaskManager.init .malformed).1.tasks = [] ∧
    (TaskManager.init .malformed).1.next_id = 1 ∧
    ∃ m2 t, (TaskManager.init .malformed).1.create_task nm ds dd "pendiente" now =
        .ok (m2, t) ∧ t.id = 1 := by
  refine ⟨rfl, rfl, rfl, ?_⟩
  unfold TaskManager.init TaskManager.load_from_file TaskManager.create_task
  rw [if_neg h]
  exact ⟨_, _, rfl, rfl⟩

theorem C5_corrupt_file_witness :
    pyStrip "x" ≠ "" ∧
    ((TaskManager.init .malformed).2 = false ∧
    (TaskManager.init .malformed).1.tasks = [] ∧
    (TaskManager.init .malformed).1.next_id = 1 ∧
    ∃ m2 t, (TaskManager.init .malformed).1.create_task "x" "" none "pendiente" 7 =
        .ok (m2, t) ∧ t.id = 1) :=
  ⟨by decide, C5_corrupt_file "x" "" none 7 (by decide)⟩

/-- C1 (counterexample): an update that supplies a new name together with
an invalid status fails with the invalid-status error, yet the targeted
task's name has already been changed by the failed call — the prior state
is not left intact, so update is not all-or-nothing. -/
theorem C1_counterexample :
    (exManager.update_task 1 (some "b") none none (some "xx")).2 =
      .error "Estado inválido" ∧
    (exManager.get_task_by_id 1).map Task.name = some "a" ∧
    (((exManager.update_task 1 (some "b") none none (some "xx")).1.get_task_by_id 1).map
      Task.name) = some "b" := by
  refine ⟨rfl, rfl, rfl⟩

/-- C6 (counterexample): at the empty store, `get_task_statistics` returns
a dictionary holding exactly the keys `total`, `pendiente`, `en_progreso`,
`completada`, `vencidas` — no completion-rate entry exists — and the CLI's
completion-rate computation is skipped (not performed as 0) when the total
is 0. -/
theorem C6_counterexample :
    TaskManager.get_task_statistics freshManager 0 =
      some [("total", 0), ("pendiente", 0), ("en_progreso", 0),
            ("completada", 0), ("vencidas", 0)] ∧
    cli_completion_rate
      [("total", 0), ("pendiente", 0), ("en_progreso", 0),
       ("completada", 0), ("vencidas", 0)] = none := by
  refine ⟨rfl, rfl⟩

/-- C7 (counterexample): for a one-task store, supplying the (non-null)
empty string as status criterion makes `filter_tasks` return the task —
Python truthiness skips the empty-string criterion — while the claim's
conjunction of supplied predicates (status equality, `filterSpec`) returns
no task. -/
theorem C7_counterexample :
    exManager.filter_tasks (some "") none none none = [exTask] ∧
    filterSpec exManager (some "") none none none = [] := by
  refine ⟨rfl, rfl⟩

/-- C7 (amended): whenever the supplied string criteria are non-empty
(`filter_tasks` treats a supplied empty string as absent, by Python
truthiness), the filter returns exactly the subsequence of tasks satisfying
the conjunction of all supplied predicates — status equality, inclusive
date bounds, case-insensitive substring match on the name. -/
theorem C7_filter_and (m : TaskManager) (st : Option String)
    (ddf ddt : Option Int) (txt : Option String)
    (hs : st ≠ some "") (ht : txt ≠ some "") :
    m.filter_tasks st ddf ddt txt = filterSpec m st ddf ddt txt := by
  rcases st with _ | s
  all_goals rcases txt with _ | q
  all_goals rcases ddf with _ | df
  all_goals rcases ddt with _ | dt
  all_goals (try replace hs : ¬ s = "" := fun h => hs (by rw [h]))
  all_goals (try replace ht : ¬ q = "" := fun h => ht (by rw [h]))
  all_goals
    simp [TaskManager.filter_tasks, filterSpec, List.filter_filter, hs, ht,
      Bool.and_comm, Bool.and_left_comm, Bool.and_assoc]

lemma update_invalid_eq (t : Task) (n d : Option String) (dd : Option Int)
    (s : String) (hs : s ∉ VALID_STATUSES) :
    Task.update t n d dd (some s) =
      ({ t with name := n.getD t.name, description := d.getD t.description,
                due_date := dd.getD t.due_date }, some "Estado inválido") := by
  cases n <;> cases d <;> cases dd <;> simp [Task.update, hs]

lemma find?_replaceFirst (ts : List Task) (i : Int) (t2 : Task)
    (h2 : (t2.id == i) = true) (t : Task)
    (h : ts.find? (fun u => u.id == i) = some t) :
    (replaceFirst ts i t2).find? (fun u => u.id == i) = some t2 := by
  induction ts with
  | nil => simp at h
  | cons u rest ih =>
      by_cases hu : (u.id == i) = true
      · rw [show replaceFirst (u :: rest) i t2 = t2 :: rest from by
          simp [replaceFirst, hu]]
        exact List.find?_cons_of_pos (p := fun u : Task => u.id == i) _ h2
      · rw [List.find?_cons_of_neg (p := fun u : Task => u.id == i) _ (by simpa using hu)] at h
        rw [show replaceFirst (u :: rest) i t2 = u :: replaceFirst rest i t2 from by
          simp [replaceFirst, hu]]
        rw [List.find?_cons_of_neg (p := fun u : Task => u.id == i) _ (by simpa using hu)]
        exact ih h

lemma replaceFirst_self (ts : List Task) (i : Int) (t : Task)
    (h : ts.find? (fun u => u.id == i) = some t) : replaceFirst ts i t = ts := by
  induction ts with
  | nil => simp [replaceFirst]
  | cons u rest ih =>
      by_cases hu : (u.id == i) = true
      · rw [List.find?_cons_of_pos (p := fun u : Task => u.id == i) _ hu] at h
        cases h
        simp [replaceFirst, hu]
      · rw [List.find?_cons_of_neg (p := fun u : Task => u.id == i) _ (by simpa using hu)] at h
        simp only [replaceFirst, hu, if_false, Bool.false_eq_true]
        rw [ih h]

/-- C1 (amended): an update call that supplies an invalid status always
fails with the invalid-status error and never changes the targeted task's
status; when the call supplies nothing but the invalid status, the task's
entire prior state (indeed the whole store) is unchanged. (The claim's
all-or-nothing part fails: name, description and due date supplied in the
same call are applied before the status validation, see the
counterexample.) -/
theorem C1_invalid_status (m : TaskManager) (i : Int) (n d : Option String)
    (dd : Option Int) (s : String) (t : Task)
    (hfind : m.get_task_by_id i = some t) (hs : s ∉ VALID_STATUSES) :
    (m.update_task i n d dd (some s)).2 = .error "Estado inválido" ∧
    ((m.update_task i n d dd (some s)).1.get_task_by_id i).map Task.status =
      some t.status ∧
    (n = none → d = none → dd = none →
      (m.update_task i n d dd (some s)).1 = m) := by
  have hfind' : m.tasks.find? (fun u => u.id == i) = some t := hfind
  have hid : (t.id == i) = true := by
    simpa using List.find?_some (p := fun u : Task => u.id == i) hfind'
  have hup := update_invalid_eq t n d dd s hs
  have hupd : m.update_task i n d dd (some s) =
      ({ m with tasks :=
          replaceFirst m.tasks i (Task.update t n d dd (some s)).1 },
        .error "Estado inválido") := by
    unfold TaskManager.update_task
    rw [hfind']
    dsimp only []
    rw [hup]
  have hst : (Task.update t n d dd (some s)).1.status = t.status := by rw [hup]
  have hid2 : ((Task.update t n d dd (some s)).1.id == i) = true := by
    rw [hup]; exact hid
  refine ⟨by rw [hupd], ?_, ?_⟩
  · rw [hupd]
    have hfr := find?_replaceFirst m.tasks i (Task.update t n d dd (some s)).1
        hid2 t hfind'
    simp [TaskManager.get_task_by_id, hfr, hst]
  · intro hn hd hdd
    subst hn; subst hd; subst hdd
    rw [hupd]
    have htt : (Task.update t none none none (some s)).1 = t := by
      rw [hup]
      rfl
    rw [htt, replaceFirst_self m.tasks i t hfind']

theorem C1_invalid_status_witness :
    (exManager.get_task_by_id 1 = some exTask ∧ "xx" ∉ VALID_STATUSES) ∧
    ((exManager.update_task 1 none none none (some "xx")).2 =
        .error "Estado inválido" ∧
      ((exManager.update_task 1 none none none (some "xx")).1.get_task_by_id 1).map
        Task.status = some exTask.status ∧
      ((none : Option String) = none → (none : Option String) = none →
        (none : Option Int) = none →
        (exManager.update_task 1 none none none (some "xx")).1 = exManager)) :=
  ⟨⟨by decide, by decide⟩,
    C1_invalid_status exManager 1 none none none "xx" exTask (by decide) (by decide)⟩

theorem C7_filter_and_witness :
    ((some "pendiente" : Option String) ≠ some "" ∧
      (some "a" : Option String) ≠ some "") ∧
    exManager.filter_tasks (some "pendiente") (some 0) (some 3) (some "a") =
      filterSpec exManager (some "pendiente") (some 0) (some 3) (some "a") :=
  ⟨⟨by decide, by decide⟩,
    C7_filter_and exManager (some "pendiente") (some 0) (some 3) (some "a")
      (by decide) (by decide)⟩

lemma dictIncr_pendiente (a p e c v : Int) :
    dictIncr [("total", a), ("pendiente", p), ("en_progreso", e),
              ("completada", c), ("vencidas", v)] "pendiente"
    = some [("total", a), ("pendiente", p + 1), ("en_progreso", e),
            ("completada", c), ("vencidas", v)] := rfl

lemma dictIncr_en_progreso (a p e c v : Int) :
    dictIncr [("total", a), ("pendiente", p), ("en_progreso", e),
              ("completada", c), ("vencidas", v)] "en_progreso"
    = some [("total", a), ("pendiente", p), ("en_progreso", e + 1),
            ("completada", c), ("vencidas", v)] := rfl

lemma dictIncr_completada (a p e c v : Int) :
    dictIncr [("total", a), ("pendiente", p), ("en_progreso", e),
              ("completada", c), ("vencidas", v)] "completada"
    = some [("total", a), ("pendiente", p), ("en_progreso", e),
            ("completada", c + 1), ("vencidas", v)] := rfl

lemma statsLoop_counts (ts : List Task) : ∀ a p e c v : Int,
    (∀ t ∈ ts, t.status ∈ VALID_STATUSES) →
    statsLoop [("total", a), ("pendiente", p), ("en_progreso", e),
               ("completada", c), ("vencidas", v)] ts
    = some [("total", a),
            ("pendiente", p + (ts.countP (fun t => t.status == "pendiente") : Int)),
            ("en_progreso", e + (ts.countP (fun t => t.status == "en_progreso") : Int)),
            ("completada", c + (ts.countP (fun t => t.status == "completada") : Int)),
            ("vencidas", v)] := by
  induction ts with
  | nil =>
      intro a p e c v _
      simp [statsLoop]
  | cons t rest ih =>
      intro a p e c v h
      have hst : t.status ∈ VALID_STATUSES := h t (List.mem_cons_self _ _)
      have hrest : ∀ u ∈ rest, u.status ∈ VALID_STATUSES :=
        fun u hu => h u (List.mem_cons_of_mem _ hu)
      have hst' : t.status = "pendiente" ∨ t.status = "en_progreso" ∨
          t.status = "completada" := by simpa [VALID_STATUSES] using hst
      rcases hst' with h1 | h1 | h1
      · rw [show statsLoop [("total", a), ("pendiente", p), ("en_progreso", e),
              ("completada", c), ("vencidas", v)] (t :: rest)
            = statsLoop [("total", a), ("pendiente", p + 1), ("en_progreso", e),
              ("completada", c), ("vencidas", v)] rest from by
            simp only [statsLoop, h1, dictIncr_pendiente]]
        rw [ih a (p + 1) e c v hrest]
        simp [List.countP_cons, h1]
        omega
      · rw [show statsLoop [("total", a), ("pendiente", p), ("en_progreso", e),
              ("completada", c), ("vencidas", v)] (t :: rest)
            = statsLoop [("total", a), ("pendiente", p), ("en_progreso", e + 1),
              ("completada", c), ("vencidas", v)] rest from by
            simp only [statsLoop, h1, dictIncr_en_progreso]]
        rw [ih a p (e + 1) c v hrest]
        simp [List.countP_cons, h1]
        omega
      · rw [show statsLoop [("total", a), ("pendiente", p), ("en_progreso", e),
              ("completada", c), ("vencidas", v)] (t :: rest)
            = statsLoop [("total", a), ("pendiente", p), ("en_progreso", e),
              ("completada", c + 1), ("vencidas", v)] rest from by
            simp only [statsLoop, h1, dictIncr_completada]]
        rw [ih a p e (c + 1) v hrest]
        simp [List.countP_cons, h1]
        omega

/-- C6 (amended): `get_task_statistics` returns the dictionary with the
total count, one count per status value and the overdue count — no
completion-rate entry; the completion rate is computed by the CLI display
layer from this dictionary, as completed/total×100 under the guard
`total > 0` (so no division by zero ever occurs; with total 0 the rate is
simply not computed). -/
theorem C6_statistics (m : TaskManager) (now : Int)
    (h : ∀ t ∈ m.tasks, t.status ∈ VALID_STATUSES) :
    ∃ stats, m.get_task_statistics now = some stats ∧
      dictGet stats "total" = (m.tasks.length : Int) ∧
      dictGet stats "pendiente" =
        (m.tasks.countP (fun t => t.status == "pendiente") : Int) ∧
      dictGet stats "en_progreso" =
        (m.tasks.countP (fun t => t.status == "en_progreso") : Int) ∧
      dictGet stats "completada" =
        (m.tasks.countP (fun t => t.status == "completada") : Int) ∧
      dictGet stats "vencidas" = ((m.get_overdue_tasks now).length : Int) ∧
      ((m.tasks.length : Int) = 0 → cli_completion_rate stats = none) ∧
      (0 < (m.tasks.length : Int) → cli_completion_rate stats =
        some (((m.tasks.countP (fun t => t.status == "completada") : Int) : ℚ) /
          ((m.tasks.length : Int) : ℚ) * 100)) := by
  have hloop := statsLoop_counts m.tasks (m.tasks.length : Int) 0 0 0
      ((m.get_overdue_tasks now).length : Int) h
  refine ⟨_, hloop, ?_, ?_, ?_, ?_, ?_, ?_, ?_⟩
  · rfl
  · show (0 : Int) + _ = _
    omega
  · show (0 : Int) + _ = _
    omega
  · show (0 : Int) + _ = _
    omega
  · rfl
  · intro h0
    unfold cli_completion_rate
    rw [if_neg]
    show ¬ (0 : Int) < (m.tasks.length : Int)
    omega
  · intro hpos
    unfold cli_completion_rate
    rw [if_pos (by exact hpos)]
    have h2 : dictGet [("total", (m.tasks.length : Int)),
        ("pendiente", 0 + (m.tasks.countP (fun t => t.status == "pendiente") : Int)),
        ("en_progreso", 0 + (m.tasks.countP (fun t => t.status == "en_progreso") : Int)),
        ("completada", 0 + (m.tasks.countP (fun t => t.status == "completada") : Int)),
        ("vencidas", ((m.get_overdue_tasks now).length : Int))] "completada"
        = 0 + (m.tasks.countP (fun t => t.status == "completada") : Int) := rfl
    rw [h2]
    have h3 : dictGet [("total", (m.tasks.length : Int)),
        ("pendiente", 0 + (m.tasks.countP (fun t => t.status == "pendiente") : Int)),
        ("en_progreso", 0 + (m.tasks.countP (fun t => t.status == "en_progreso") : Int)),
        ("completada", 0 + (m.tasks.countP (fun t => t.status == "completada") : Int)),
        ("vencidas", ((m.get_overdue_tasks now).length : Int))] "total"
        = (m.tasks.length : Int) := rfl
    rw [h3]
    norm_num

lemma intRange_mem_le (k : Nat) : ∀ s u : Int, u ∈ intRange s k → s ≤ u := by
  induction k with
  | zero => intro s u h; simp [intRange] at h
  | succ n ih =>
      intro s u h
      simp only [intRange, List.mem_cons] at h
      rcases h with rfl | h
      · exact le_refl u
      · have := ih (s + 1) u h
        omega

lemma intRange_nodup (k : Nat) : ∀ s : Int, (intRange s k).Nodup := by
  induction k with
  | zero => intro s; simp [intRange]
  | succ n ih =>
      intro s
      simp only [intRange, List.nodup_cons]
      refine ⟨fun hmem => ?_, ih (s + 1)⟩
      have := intRange_mem_le n (s + 1) s hmem
      omega

lemma create_task_ok (m : TaskManager) (nm ds : String) (dd : Option Int)
    (st : String) (now : Int) (p : TaskManager × Task)
    (hc : m.create_task nm ds dd st now = .ok p) :
    p.1.next_id = m.next_id + 1 ∧ p.2.id = m.next_id ∧
    p.1.tasks = m.tasks ++ [p.2] := by
  unfold TaskManager.create_task at hc
  by_cases h1 : pyStrip nm = ""
  · rw [if_pos h1] at hc; cases hc
  · rw [if_neg h1] at hc
    unfold Task.init at hc
    by_cases h2 : st ∈ VALID_STATUSES
    · rw [if_pos h2] at hc
      cases hc
      exact ⟨rfl, rfl, rfl⟩
    · rw [if_neg h2] at hc; cases hc

lemma delete_next_id (m : TaskManager) (i : Int) :
    (m.delete_task i).1.next_id = m.next_id := by
  unfold TaskManager.delete_task
  cases h : m.tasks.find? (fun t => t.id == i) <;> rfl

lemma runTrace_ids (ops : List Op) : ∀ m : TaskManager,
    (∀ op ∈ ops, isCreateOrDelete op = true) →
    (runTrace m ops).2 = intRange m.next_id (runTrace m ops).2.length ∧
    (runTrace m ops).1.next_id = m.next_id + ((runTrace m ops).2.length : Int) := by
  induction ops with
  | nil => intro m _; simp [runTrace, intRange]
  | cons op rest ih =>
      intro m h
      have hop := h op (List.mem_cons_self _ _)
      have hrest : ∀ o ∈ rest, isCreateOrDelete o = true :=
        fun o ho => h o (List.mem_cons_of_mem _ ho)
      cases op with
      | create nm ds dd st now =>
          cases hc : m.create_task nm ds dd st now with
          | error e =>
              have hp : applyOpTrace m (.create nm ds dd st now) = (m, []) := by
                simp [applyOpTrace, hc]
              have hrt : runTrace m (.create nm ds dd st now :: rest) =
                  ((runTrace m rest).1, [] ++ (runTrace m rest).2) := by
                simp [runTrace, hp]
              rw [hrt]
              simpa using ih m hrest
          | ok p =>
              obtain ⟨hnext, hid, -⟩ := create_task_ok m nm ds dd st now p hc
              have hp : applyOpTrace m (.create nm ds dd st now) = (p.1, [p.2.id]) := by
                simp [applyOpTrace, hc]
              have hrt : runTrace m (.create nm ds dd st now :: rest) =
                  ((runTrace p.1 rest).1, [p.2.id] ++ (runTrace p.1 rest).2) := by
                simp [runTrace, hp]
              rw [hrt]
              obtain ⟨ih1, ih2⟩ := ih p.1 hrest
              constructor
              · show p.2.id :: (runTrace p.1 rest).2 =
                  intRange m.next_id (p.2.id :: (runTrace p.1 rest).2).length
                rw [List.length_cons, intRange, hid]
                rw [show m.next_id + 1 = p.1.next_id from hnext.symm]
                rw [← ih1]
              · show (runTrace p.1 rest).1.next_id =
                  m.next_id + ((p.2.id :: (runTrace p.1 rest).2).length : Int)
                rw [List.length_cons, ih2, hnext]
                push_cast
                ring
      | update i n d dd st => simp [isCreateOrDelete] at hop
      | delete i =>
          have hp : applyOpTrace m (.delete i) = ((m.delete_task i).1, []) := rfl
          have hrt : runTrace m (.delete i :: rest) =
              ((runTrace (m.delete_task i).1 rest).1,
                [] ++ (runTrace (m.delete_task i).1 rest).2) := by
            simp [runTrace, hp]
          rw [hrt]
          obtain ⟨ih1, ih2⟩ := ih (m.delete_task i).1 hrest
          rw [delete_next_id m i] at ih1 ih2
          simpa using ⟨ih1, ih2⟩
      | clear => simp [isCreateOrDelete] at hop
      | load f => simp [isCreateOrDelete] at hop

/-- C3: starting from a fresh store, any sequence of create and delete
operations assigns, across its successful creates and in order, exactly
the ids 1, 2, ..., N (N the number of successful creates); in particular
the assigned ids are pairwise distinct, so an id freed by a delete is
never assigned again. -/
theorem C3_sequential_ids (ops : List Op)
    (h : ∀ op ∈ ops, isCreateOrDelete op = true) :
    (runTrace freshManager ops).2 =
      intRange 1 (runTrace freshManager ops).2.length ∧
    (runTrace freshManager ops).2.Nodup := by
  have hm := runTrace_ids ops freshManager h
  refine ⟨hm.1, ?_⟩
  rw [hm.1]
  exact intRange_nodup _ 1

theorem C3_sequential_ids_witness :
    (∀ op ∈ ([.create "a" "" none "pendiente" 0, .delete 1,
              .create "b" "" none "pendiente" 0] : List Op),
      isCreateOrDelete op = true) ∧
    ((runTrace freshManager [.create "a" "" none "pendiente" 0, .delete 1,
        .create "b" "" none "pendiente" 0]).2 =
      intRange 1 (runTrace freshManager [.create "a" "" none "pendiente" 0,
        .delete 1, .create "b" "" none "pendiente" 0]).2.length ∧
    (runTrace freshManager [.create "a" "" none "pendiente" 0, .delete 1,
        .create "b" "" none "pendiente" 0]).2.Nodup) :=
  ⟨by decide, C3_sequential_ids _ (by decide)⟩

lemma mem_replaceFirst (ts : List Task) (i : Int) (t2 u : Task)
    (h : u ∈ replaceFirst ts i t2) : u ∈ ts ∨ u = t2 := by
  induction ts with
  | nil => simp [replaceFirst] at h
  | cons v rest ih =>
      by_cases hv : (v.id == i) = true
      · simp only [replaceFirst, hv, if_true] at h
        rcases List.mem_cons.mp h with rfl | h
        · exact Or.inr rfl
        · exact Or.inl (List.mem_cons_of_mem _ h)
      · simp only [replaceFirst, hv, if_false, Bool.false_eq_true] at h
        rcases List.mem_cons.mp h with rfl | h
        · exact Or.inl (List.mem_cons_self _ _)
        · rcases ih h with h' | h'
          · exact Or.inl (List.mem_cons_of_mem _ h')
          · exact Or.inr h'

lemma mem_removeFirst (ts : List Task) (i : Int) (u : Task)
    (h : u ∈ removeFirst ts i) : u ∈ ts := by
  induction ts with
  | nil => simp [removeFirst] at h
  | cons v rest ih =>
      by_cases hv : (v.id == i) = true
      · simp only [removeFirst, hv, if_true] at h
        exact List.mem_cons_of_mem _ h
      · simp only [removeFirst, hv, if_false, Bool.false_eq_true] at h
        rcases List.mem_cons.mp h with rfl | h
        · exact List.mem_cons_self _ _
        · exact List.mem_cons_of_mem _ (ih h)

lemma update_id (t : Task) (n d : Option String) (dd : Option Int)
    (s : Option String) : (Task.update t n d dd s).1.id = t.id := by
  cases n <;> cases d <;> cases dd <;> cases s <;>
    simp [Task.update] <;> split <;> rfl

lemma loadLoop_inv (rs : List TaskRecord) : ∀ m : TaskManager, Inv m →
    Inv (loadLoop m rs).1 := by
  induction rs with
  | nil => intro m hm; exact hm
  | cons r rest ih =>
      intro m hm
      cases hfd : Task.from_dict r with
      | error e =>
          have : loadLoop m (r :: rest) = (m, false) := by
            simp [loadLoop, hfd]
          rw [this]
          exact hm
      | ok t =>
          by_cases hb : m.next_id ≤ t.id
          · have hstep : loadLoop m (r :: rest) =
                loadLoop { tasks := m.tasks ++ [t], next_id := t.id + 1 } rest := by
              simp [loadLoop, hfd, hb]
            rw [hstep]
            refine ih _ ?_
            intro u hu
            rcases List.mem_append.mp hu with h' | h'
            · have := hm u h'
              simp only []
              omega
            · rcases List.mem_singleton.mp h' with rfl
              simp only []
              omega
          · have hstep : loadLoop m (r :: rest) =
                loadLoop { tasks := m.tasks ++ [t], next_id := m.next_id } rest := by
              simp [loadLoop, hfd, hb]
            rw [hstep]
            refine ih _ ?_
            intro u hu
            rcases List.mem_append.mp hu with h' | h'
            · exact hm u h'
            · rcases List.mem_singleton.mp h' with rfl
              simp only []
              omega

lemma inv_applyOp (m : TaskManager) (op : Op) (hm : Inv m) :
    Inv (applyOp m op) := by
  cases op with
  | create nm ds dd st now =>
      cases hc : m.create_task nm ds dd st now with
      | error e => simpa [applyOp, hc] using hm
      | ok p =>
          obtain ⟨hnext, hid, htasks⟩ := create_task_ok m nm ds dd st now p hc
          have : applyOp m (.create nm ds dd st now) = p.1 := by
            simp [applyOp, hc]
          rw [this]
          intro u hu
          rw [htasks] at hu
          rw [hnext]
          rcases List.mem_append.mp hu with h' | h'
          · have := hm u h'
            omega
          · rcases List.mem_singleton.mp h' with rfl
            omega
  | update i n d dd st =>
      show Inv (m.update_task i n d dd st).1
      unfold TaskManager.update_task
      cases hf : m.tasks.find? (fun t => t.id == i) with
      | none => exact hm
      | some t =>
          dsimp only []
          have htmem : t ∈ m.tasks := List.mem_of_find?_eq_some hf
          cases hup : Task.update t n d dd st with
          | mk t2 err =>
              have ht2 : t2.id = t.id := by
                have h2 := update_id t n d dd st
                rw [hup] at h2
                exact h2
              have key : Inv { m with tasks := replaceFirst m.tasks i t2 } := by
                intro u hu
                rcases mem_replaceFirst m.tasks i t2 u hu with h' | he
                · exact hm u h'
                · show u.id < m.next_id
                  rw [he, ht2]
                  exact hm t htmem
              cases err <;> exact key
  | delete i =>
      show Inv (m.delete_task i).1
      unfold TaskManager.delete_task
      cases hf : m.tasks.find? (fun t => t.id == i) with
      | none => exact hm
      | some t =>
          intro u hu
          exact hm u (mem_removeFirst m.tasks i u hu)
  | clear =>
      intro u hu
      simp [applyOp, TaskManager.clear_all_tasks] at hu
  | load f =>
      cases f with
      | missing => exact hm
      | malformed => exact hm
      | document d =>
          show Inv (loadLoop { m with next_id := d.next_id, tasks := [] } d.tasks).1
          exact loadLoop_inv d.tasks _ (by intro u hu; simp at hu)

/-- C4: in every store state reachable from a fresh store by any sequence
of create, update, delete, clear and load operations, `next_id` is
strictly greater than every id in the collection. -/
theorem C4_next_id_invariant (ops : List Op) : Inv (run freshManager ops) := by
  have key : ∀ ops : List Op, ∀ m : TaskManager, Inv m → Inv (run m ops) := by
    intro ops
    induction ops with
    | nil => intro m hm; exact hm
    | cons op rest ih => intro m hm; exact ih _ (inv_applyOp m op hm)
  exact key ops freshManager (by intro u hu; simp [freshManager] at hu)

lemma from_to_dict (t : Task) (h : t.status ∈ VALID_STATUSES) :
    Task.from_dict (Task.to_dict t) = .ok t := by
  simp [Task.from_dict, Task.to_dict, Task.init, h]

lemma loadLoop_ok (rs : List TaskRecord) : ∀ m : TaskManager,
    (∀ r ∈ rs, r.status ∈ VALID_STATUSES) →
    (loadLoop m rs).2 = true ∧
    (loadLoop m rs).1.tasks = m.tasks ++ rs.map recTask ∧
    m.next_id ≤ (loadLoop m rs).1.next_id ∧
    ((∀ r ∈ rs, r.id < m.next_id) → (loadLoop m rs).1.next_id = m.next_id) := by
  induction rs with
  | nil => intro m _; simp [loadLoop]
  | cons r rest ih =>
      intro m h
      have hr : r.status ∈ VALID_STATUSES := h r (List.mem_cons_self _ _)
      have hrest : ∀ u ∈ rest, u.status ∈ VALID_STATUSES :=
        fun u hu => h u (List.mem_cons_of_mem _ hu)
      have hfd : Task.from_dict r = .ok (recTask r) := by
        simp [Task.from_dict, Task.init, recTask, hr]
      by_cases hb : m.next_id ≤ r.id
      · have hstep : loadLoop m (r :: rest) =
            loadLoop { tasks := m.tasks ++ [recTask r], next_id := r.id + 1 } rest := by
          simp [loadLoop, hfd, recTask, hb]
        rw [hstep]
        obtain ⟨i1, i2, i3, i4⟩ := ih _ hrest
        refine ⟨i1, ?_, ?_, ?_⟩
        · rw [i2]
          simp [recTask]
        · have h1 : (m.next_id : Int) ≤ r.id + 1 := by omega
          exact le_trans h1 i3
        · intro hall
          have := hall r (List.mem_cons_self _ _)
          omega
      · have hstep : loadLoop m (r :: rest) =
            loadLoop { tasks := m.tasks ++ [recTask r], next_id := m.next_id } rest := by
          simp [loadLoop, hfd, recTask, hb]
        rw [hstep]
        obtain ⟨i1, i2, i3, i4⟩ := ih _ hrest
        refine ⟨i1, ?_, i3, ?_⟩
        · rw [i2]
          simp
        · intro hall
          exact i4 (fun u hu => hall u (List.mem_cons_of_mem _ hu))

/-- C2: loading the document written by save reconstructs the collection —
equal in (id, name, description, status, due_date), in the same order —
reports success, leaves `next_id` greater than every loaded id and at
least the saved one, and preserves `next_id` exactly whenever the saved
store satisfied the `next_id > max id` invariant. -/
theorem C2_roundtrip (m m0 : TaskManager)
    (h : ∀ t ∈ m.tasks, t.status ∈ VALID_STATUSES) :
    (m0.load_from_file (.document m.save_to_file)).2 = true ∧
    (m0.load_from_file (.document m.save_to_file)).1.tasks.map taskProj =
      m.tasks.map taskProj ∧
    (∀ t ∈ (m0.load_from_file (.document m.save_to_file)).1.tasks,
      t.id < (m0.load_from_file (.document m.save_to_file)).1.next_id) ∧
    m.next_id ≤ (m0.load_from_file (.document m.save_to_file)).1.next_id ∧
    ((∀ t ∈ m.tasks, t.id < m.next_id) →
      (m0.load_from_file (.document m.save_to_file)).1.next_id = m.next_id) := by
  have hload : m0.load_from_file (.document m.save_to_file) =
      loadLoop { m0 with next_id := m.next_id, tasks := [] }
        (m.tasks.map Task.to_dict) := rfl
  have hrecs : ∀ r ∈ m.tasks.map Task.to_dict, r.status ∈ VALID_STATUSES := by
    intro r hr
    rcases List.mem_map.mp hr with ⟨t, ht, rfl⟩
    simpa [Task.to_dict] using h t ht
  obtain ⟨l1, l2, l3, l4⟩ := loadLoop_ok (m.tasks.map Task.to_dict)
      { m0 with next_id := m.next_id, tasks := [] } hrecs
  have htasks : (m0.load_from_file (.document m.save_to_file)).1.tasks =
      m.tasks := by
    rw [hload, l2]
    simp only [List.nil_append, List.map_map]
    have hcomp : recTask ∘ Task.to_dict = id := funext fun t => rfl
    rw [hcomp, List.map_id]
  refine ⟨by rw [hload]; exact l1, by rw [htasks], ?_, ?_, ?_⟩
  · intro t ht
    rw [hload] at ht ⊢
    exact loadLoop_inv (m.tasks.map Task.to_dict) _ (by intro u hu; simp at hu) t ht
  · rw [hload]
    exact l3
  · intro hInv
    rw [hload]
    refine l4 ?_
    intro r hr
    rcases List.mem_map.mp hr with ⟨t, ht, rfl⟩
    simpa [Task.to_dict] using hInv t ht

theorem C2_roundtrip_witness :
    (∀ t ∈ exManager.tasks, t.status ∈ VALID_STATUSES) ∧
    ((freshManager.load_from_file (.document exManager.save_to_file)).2 = true ∧
    (freshManager.load_from_file (.document exManager.save_to_file)).1.tasks.map
      taskProj = exManager.tasks.map taskProj ∧
    (∀ t ∈ (freshManager.load_from_file (.document exManager.save_to_file)).1.tasks,
      t.id < (freshManager.load_from_file (.document exManager.save_to_file)).1.next_id) ∧
    exManager.next_id ≤
      (freshManager.load_from_file (.document exManager.save_to_file)).1.next_id ∧
    ((∀ t ∈ exManager.tasks, t.id < exManager.next_id) →
      (freshManager.load_from_file (.document exManager.save_to_file)).1.next_id =
        exManager.next_id)) :=
  ⟨by decide, C2_roundtrip exManager freshManager (by decide)⟩

theorem C6_statistics_witness :
    (∀ t ∈ exManager.tasks, t.status ∈ VALID_STATUSES) ∧
    (∃ stats, exManager.get_task_statistics 0 = some stats ∧
      dictGet stats "total" = (exManager.tasks.length : Int) ∧
      dictGet stats "pendiente" =
        (exManager.tasks.countP (fun t => t.status == "pendiente") : Int) ∧
      dictGet stats "en_progreso" =
        (exManager.tasks.countP (fun t => t.status == "en_progreso") : Int) ∧
      dictGet stats "completada" =
        (exManager.tasks.countP (fun t => t.status == "completada") : Int) ∧
      dictGet stats "vencidas" = ((exManager.get_overdue_tasks 0).length : Int) ∧
      ((exManager.tasks.length : Int) = 0 → cli_completion_rate stats = none) ∧
      (0 < (exManager.tasks.length : Int) → cli_completion_rate stats =
        some (((exManager.tasks.countP (fun t => t.status == "completada") : Int) : ℚ) /
          ((exManager.tasks.length : Int) : ℚ) * 100))) :=
  ⟨by decide, C6_statistics exManager 0 (by decide)⟩

end TaskSys
